import Mathlib

/-!
Verification of the gesture-binding configuration engine of
libinput-gestures-qt (`main.py`).

The configuration file is a list of raw text lines.  The engine consists of
pure string functions: the two label/token translation tables
(`actions_mapping` / `reversed_mapping`), the key-combo translator
(`find_key_combo`), the repair procedure (`fix_config`), the parser
(`prepare_config_for_displaying`), the delete operation (`delete_entry`) and
the upsert operation (`save_changes`).  All of them are embedded below as
executable Lean functions on `String` / `List String`.  Python operations are
modelled one-for-one: `str.split()` (split on runs of whitespace, dropping
empty tokens), `str.split('+')` (split on every separator, keeping empty
parts), `str.replace('\t', ' ')`, `str.startswith`, `str.lower`, `str(int)`
and `'sep'.join`.  A fallible operation (an `IndexError` from an out-of-range
list subscript, or a `KeyError` from a failed dict lookup) is modelled with
`Option`, `none` being the raised exception.
-/

/-- Python whitespace for `str.split()`: space, tab, newline, carriage
return, vertical tab, form feed. -/
def isWs (c : Char) : Bool :=
  c = ' ' || c = '\t' || c = '\n' || c = '\r' || c = '\x0b' || c = '\x0c'

/-- Worker for `str.split()`: `acc` holds the characters of the token
currently being read, in reverse order. -/
def pySplitGo : List Char → List Char → List (List Char)
  | [], [] => []
  | [], a :: acc => [(a :: acc).reverse]
  | c :: cs, acc =>
    if isWs c then
      match acc with
      | [] => pySplitGo cs []
      | a :: acc' => (a :: acc').reverse :: pySplitGo cs []
    else pySplitGo cs (c :: acc)

/-- Python `s.split()`: whitespace-delimited tokens, no empty tokens. -/
def pySplit (s : String) : List String :=
  (pySplitGo s.data []).map (fun cs => String.mk cs)

/-- Python `s.replace('\t', ' ')`. -/
def replaceTab (s : String) : String :=
  String.mk (s.data.map (fun c => if c = '\t' then ' ' else c))

/-- Worker for `str.startswith` on character lists; second argument is the
candidate leading substring. -/
def strStartsWith : List Char → List Char → Bool
  | _, [] => true
  | [], _ :: _ => false
  | b :: ss, a :: ps => if a = b then strStartsWith ss ps else false

/-- Python `s.startswith(p)`. -/
def pyStartswith (s p : String) : Bool :=
  strStartsWith s.data p.data

/-- Python `' '.join(l)`. -/
def joinSpace : List String → String
  | [] => ""
  | [s] => s
  | s :: t :: rest => s ++ " " ++ joinSpace (t :: rest)

/-- Python `'+'.join(l)`. -/
def joinPlus : List String → String
  | [] => ""
  | [s] => s
  | s :: t :: rest => s ++ "+" ++ joinPlus (t :: rest)

/-- Worker for Python `s.split('+')`: splits at every `'+'`, keeping empty
parts (so the result is always non-empty). -/
def pySplitPlusGo : List Char → List (List Char)
  | [] => [[]]
  | c :: cs =>
    if c = '+' then [] :: pySplitPlusGo cs
    else
      match pySplitPlusGo cs with
      | [] => [[c]]
      | h :: t => (c :: h) :: t

/-- Python `s.split('+')`. -/
def pySplitPlus (s : String) : List String :=
  (pySplitPlusGo s.data).map (fun cs => String.mk cs)

/-- Python `s.lower()` restricted to ASCII, which is all the key names use. -/
def pyLower (s : String) : String :=
  String.mk (s.data.map (fun c =>
    if 'A' ≤ c && c ≤ 'Z' then Char.ofNat (c.toNat + 32) else c))

/-- Decimal digit character, as produced by Python `str(int)`. -/
def natDigit (d : Nat) : Char := Char.ofNat (48 + d)

/-- Fuel-driven worker for decimal rendering of a natural number. -/
def natReprGo : Nat → Nat → List Char
  | 0, _ => []
  | fuel + 1, n =>
    if n < 10 then [natDigit n]
    else natReprGo fuel (n / 10) ++ [natDigit (n % 10)]

/-- Python `str(n)` for a natural number. -/
def natRepr (n : Nat) : String := String.mk (natReprGo (n + 1) n)

/-- Python dict lookup on an association list; `none` is a `KeyError`. -/
def lookupTable : List (String × String) → String → Option String
  | [], _ => none
  | (a, b) :: rest, k => if k = a then some b else lookupTable rest k

/-- The `actions_mapping` dict of `main.py`: human-readable label to config
token.  The entry for `Swipe LeftDown` carries the source's double space. -/
def actionsMapping : List (String × String) :=
  [ ("Swipe Up", "gesture swipe up"),
    ("Swipe Down", "gesture swipe down"),
    ("Swipe Left", "gesture swipe left"),
    ("Swipe LeftUp", "gesture swipe left_up"),
    ("Swipe LeftDown", "gesture swipe  left_down"),
    ("Swipe Right", "gesture swipe right"),
    ("Swipe RightUp", "gesture swipe right_up"),
    ("Swipe RightDown", "gesture swipe right_down"),
    ("Pinch In", "gesture pinch in"),
    ("Pinch Out", "gesture pinch out"),
    ("Pinch Clockwise", "gesture pinch clockwise"),
    ("Pinch Anticlockwise", "gesture pinch anticlockwise") ]

/-- The `reversed_mapping` dict of `main.py`: config token to human-readable
label. -/
def reversedMapping : List (String × String) :=
  [ ("gesture swipe up", "Swipe Up"),
    ("gesture swipe down", "Swipe Down"),
    ("gesture swipe left", "Swipe Left"),
    ("gesture swipe left_up", "Swipe LeftUp"),
    ("gesture swipe left_down", "Swipe LeftDown"),
    ("gesture swipe right", "Swipe Right"),
    ("gesture swipe right_up", "Swipe RightUp"),
    ("gesture swipe right_down", "Swipe RightDown"),
    ("gesture pinch in", "Pinch In"),
    ("gesture pinch out", "Pinch Out"),
    ("gesture pinch clockwise", "Pinch Clockwise"),
    ("gesture pinch anticlockwise", "Pinch Anticlockwise") ]

/-- The `keys_mapping` dict of `main.py`: lowered qt key name to xdotool key
name. -/
def keysMapping : List (String × String) :=
  [ ("meta", "super"), ("pgdown", "Page_Down"), ("pgup", "Page_Up"),
    ("right", "Right"), ("left", "Left"), ("up", "Up"), ("down", "Down"),
    ("f1", "F1"), ("f2", "F2"), ("f3", "F3"), ("f4", "F4"), ("f5", "F5"),
    ("f6", "F6"), ("f7", "F7"), ("f8", "F8"), ("f9", "F9"), ("f10", "F10"),
    ("f11", "F11"), ("f12", "F12") ]

/-- `actions_mapping[label]`. -/
def actionsLookup (label : String) : Option String :=
  lookupTable actionsMapping label

/-- `reversed_mapping[token]`. -/
def reversedLookup (token : String) : Option String :=
  lookupTable reversedMapping token

/-- `keys_mapping[key]`. -/
def keysLookup (key : String) : Option String :=
  lookupTable keysMapping key

/-- `find_key_combo` of `main.py`: split the qt key combo on `'+'`, lower
each key, translate it through `keys_mapping` when present (lowered identity
fallback otherwise), and join with `'+'`. -/
def findKeyCombo (qtKeyCombo : String) : String :=
  joinPlus ((pySplitPlus qtKeyCombo).map (fun qtKey =>
    let lowered := pyLower qtKey
    match keysLookup lowered with
    | some v => v
    | none => lowered))

/-- One step of the `fix_config` loop of `main.py`, deciding the fate of a
single raw line: `none` is a raised exception (an out-of-range subscript),
`some true` keeps the line, `some false` drops it.  The source indexes
`splitted[0]`, `splitted[4]` and `splitted[5]` unconditionally on the
branches that reach them, which is where the `none` cases come from. -/
def fixTokens : List String → Option Bool
  | [] => none
  | t0 :: rest =>
    if t0 = "gesture" then
      match rest with
      | _ :: _ :: _ :: t4 :: rest5 =>
        if t4 = "xdotool" then
          match rest5 with
          | [] => none
          | t5 :: rest6 => some (t5 = "key" && rest6.length == 1)
        else some true
      | _ => none
    else if t0 = "device" || t0 = "swipe_threshold" then
      some (rest.length == 1)
    else some false

/-- The fate of one raw line under `fix_config`: comments are kept, all
other lines are decided by `fixTokens` on their whitespace tokens. -/
def fixLine (l : String) : Option Bool :=
  if pyStartswith l "#" then some true
  else fixTokens (pySplit (replaceTab l))

/-- `fix_config` of `main.py` as a function of the raw line list it reads;
`none` is a raised exception aborting the repair (the written result
otherwise). -/
def fixConfig : List String → Option (List String)
  | [] => some []
  | l :: ls =>
    match fixLine l with
    | none => none
    | some true => (fixConfig ls).map (fun r => l :: r)
    | some false => fixConfig ls

/-- Flat restatement of the keep-condition actually implemented by
`fix_config`, for lines it survives on: a comment, a 2-token
`device`/`swipe_threshold` directive, or a `gesture` line with at least five
tokens whose fifth token is either not `xdotool` or is `xdotool key` with
exactly seven tokens in total.  No direction or finger-count validity is
involved. -/
def implKeepTokens (sp : List String) : Bool :=
  if sp.head? = some "gesture" then
    match sp with
    | _ :: _ :: _ :: _ :: t4 :: rest5 =>
      t4 ≠ "xdotool" || (rest5.head? = some "key" && rest5.length == 2)
    | _ => false
  else if sp.head? = some "device" || sp.head? = some "swipe_threshold" then
    sp.length == 2
  else false

/-- Flat keep-condition on a whole raw line: comments, plus the token
condition of `implKeepTokens`. -/
def implKeep (l : String) : Bool :=
  if pyStartswith l "#" then true
  else implKeepTokens (pySplit (replaceTab l))

/-- One parsed row of `prepare_config_for_displaying`: the human-readable
label, the finger-count token exactly as found (the source never converts it
to an integer), the action kind (the strings `"shortcut"` / `"command"`),
the action text, and the config token rebuilt from the first three tokens
(used as the delete button name). -/
structure PLine where
  label : String
  fingers : String
  action : String
  shortcut : String
  button : String
deriving DecidableEq, Repr

/-- One step of the `prepare_config_for_displaying` loop of `main.py` on a
single raw line: `none` is a raised exception (`KeyError` from
`reversed_mapping` or `IndexError` from a subscript), `some none` a skipped
line (one not starting with `gesture`), `some (some r)` a parsed row. -/
def parseTokens : List String → Option (Option PLine)
  | t0 :: t1 :: t2 :: rest =>
    let key := t0 ++ " " ++ t1 ++ " " ++ t2
    match reversedLookup key with
    | none => none
    | some lbl =>
      match rest with
      | f :: a4 :: rest5 =>
        if a4 = "xdotool" then
          match rest5 with
          | [] => none
          | a5 :: rest6 =>
            if a5 = "key" then
              match rest6 with
              | [] => none
              | a6 :: _ => some (some ⟨lbl, f, "shortcut", a6, key⟩)
            else
              some (some ⟨lbl, f, "command", joinSpace (a4 :: rest5), key⟩)
        else some (some ⟨lbl, f, "command", joinSpace (a4 :: rest5), key⟩)
      | _ => none
  | _ => none

/-- The fate of one raw line under `prepare_config_for_displaying`: lines
not starting with `gesture` are skipped, the rest are decided by
`parseTokens` on their whitespace tokens. -/
def parseLine (l : String) : Option (Option PLine) :=
  if pyStartswith l "gesture" then parseTokens (pySplit (replaceTab l))
  else some none

/-- `prepare_config_for_displaying` of `main.py` as a function of the raw
line list it reads: the list of parsed rows, or `none` when any line raises
(in the source the exception escapes to `display_config`, so no row list is
ever used). -/
def prepareConfig : List String → Option (List PLine)
  | [] => some []
  | l :: ls =>
    match parseLine l with
    | none => none
    | some none => prepareConfig ls
    | some (some r) => (prepareConfig ls).map (fun rs => r :: rs)

/-- `delete_entry` of `main.py` (the confirmed branch) as a function of the
raw line list and the pressed button's accessible name, which
`display_config` sets to the parsed row's config token: every raw line
starting with that name is removed, the rest are kept verbatim. -/
def deleteEntry (conf : List String) (buttonName : String) : List String :=
  conf.filter (fun l => !(pyStartswith l buttonName))

/-- The raw line appended by `save_changes` of `main.py`:
`'{}\t{} {}\n'.format(action, fingers, shortcut)`. -/
def serLine (action fingersStr shortcutText : String) : String :=
  action ++ "\t" ++ fingersStr ++ " " ++ shortcutText ++ "\n"

/-- `save_changes` of `main.py` (the all-fields-filled branch) as a function
of the raw line list and the three fields: drop every line whose
tab-normalized text starts with `'{} {}'.format(action, fingers)`, then
append the new serialized line. -/
def saveChanges (conf : List String) (action fingersStr shortcutText : String) :
    List String :=
  (conf.filter (fun l =>
    !(pyStartswith (replaceTab l) (action ++ " " ++ fingersStr)))) ++
  [serLine action fingersStr shortcutText]

/-- A Binding as the edit window holds it: a human-readable label (which
fixes the gesture kind and direction), a finger count, the action kind and
the action value. -/
structure Binding where
  label : String
  fingers : Nat
  isShortcut : Bool
  value : String
deriving DecidableEq, Repr

/-- The action text `save_changes` receives for a Binding: the value itself
for a command, `'xdotool key ' + value` for a shortcut (as built by
`shortcut_chosen`). -/
def actionText (b : Binding) : String :=
  if b.isShortcut then "xdotool key " ++ b.value else b.value

/-- Serialization of a Binding to its raw config line, `none` when the label
is not a declared one (`KeyError` in `action_chosen`). -/
def serializeBinding (b : Binding) : Option String :=
  (actionsLookup b.label).map (fun act => serLine act (natRepr b.fingers) (actionText b))

/-- Modelled from the spec: the Line Grammar of spec section 4.3, which the
source has no single function for (parsing and repair each hard-code their
own fragment of it).  A line is well-formed iff it is a comment, a 2-token
`device`/`swipe_threshold` directive, or a `gesture` BindingLine whose first
three tokens form a declared config token, whose fourth token is an integer
(decimal digits), and whose xdotool form, when present, is `xdotool key`
with exactly seven tokens. -/
def specWellFormedLine (l : String) : Bool :=
  if pyStartswith l "#" then true
  else
    match pySplit (replaceTab l) with
    | [] => false
    | t0 :: rest =>
      if t0 = "device" || t0 = "swipe_threshold" then rest.length == 1
      else if t0 = "gesture" then
        match rest with
        | t1 :: t2 :: t3 :: t4 :: rest5 =>
          (reversedLookup ("gesture " ++ t1 ++ " " ++ t2)).isSome &&
          (t3 ≠ "" && t3.data.all (fun c => '0' ≤ c && c ≤ '9')) &&
          (if t4 = "xdotool" then
            rest5.head? = some "key" && rest5.length == 2
          else true)
        | _ => false
      else false

/-- A raw line classified as a Comment by the Line Grammar. -/
def specIsComment (l : String) : Bool := pyStartswith l "#"

/-- A raw line classified as a Directive by the Line Grammar: first token
`device` or `swipe_threshold`. -/
def specIsDirective (l : String) : Bool :=
  (pySplit (replaceTab l)).head? = some "device" ||
  (pySplit (replaceTab l)).head? = some "swipe_threshold"

/-- A `gesture`-initial line whose first three tokens do not form a declared
config token (including the case of fewer than three tokens); `parseLine`
raises on exactly these among the lines it does not skip. -/
def badTriple (l : String) : Bool :=
  match pySplit (replaceTab l) with
  | t0 :: t1 :: t2 :: _ => (reversedLookup (t0 ++ " " ++ t1 ++ " " ++ t2)).isNone
  | _ => true

/-- Chars of a sequence of words joined by single spaces, in front of a
trailing char list. -/
def wordsChars : List (List Char) → List Char → List Char
  | [], tail => tail
  | w :: ws, tail => w ++ ' ' :: wordsChars ws tail

/-- Head condition under which a command action text survives the parser's
xdotool sniffing: the token list is non-empty, and when its first token is
`xdotool` there is a second token and it is not `key` (a lone `xdotool`
crashes the parser, and `xdotool key ...` is re-read as a Shortcut). -/
def cmdOk (ws : List String) : Bool :=
  match ws with
  | [] => false
  | w :: rest =>
    if w = "xdotool" then
      match rest with
      | [] => false
      | w2 :: _ => w2 ≠ "key"
    else true

/-- The four fields of a parsed row that correspond to a Binding's own
fields (the rebuilt `button` token is display plumbing, not a Binding
field). -/
def plFields (p : PLine) : String × String × String × String :=
  (p.label, p.fingers, p.action, p.shortcut)

/-! ### Helper lemmas on the string primitives -/

theorem strStartsWith_append_self (p r : List Char) :
    strStartsWith (p ++ r) p = true := by
  induction p with
  | nil => cases r <;> rfl
  | cons a ps ih => simp [strStartsWith, ih]

theorem strStartsWith_of_append {s a b : List Char}
    (h : strStartsWith s (a ++ b) = true) : strStartsWith s a = true := by
  induction a generalizing s with
  | nil => cases s <;> rfl
  | cons x xs ih =>
    cases s with
    | nil => simp [strStartsWith] at h
    | cons y ys =>
      simp only [List.cons_append, strStartsWith] at h ⊢
      split at h
      · next heq => simp only [heq, if_true]; exact ih h
      · exact absurd h (by simp)

theorem eq_append_of_strStartsWith {s p : List Char}
    (h : strStartsWith s p = true) : ∃ t, s = p ++ t := by
  induction p generalizing s with
  | nil => exact ⟨s, rfl⟩
  | cons a ps ih =>
    cases s with
    | nil => simp [strStartsWith] at h
    | cons b ss =>
      simp only [strStartsWith] at h
      split at h
      · next heq =>
        obtain ⟨t, ht⟩ := ih h
        exact ⟨t, by simp [heq, ht]⟩
      · exact absurd h (by simp)

theorem pySplitGo_ws_cons {c : Char} (hc : isWs c = true) (l : List Char) :
    pySplitGo (c :: l) [] = pySplitGo l [] := by
  simp [pySplitGo, hc]

theorem pySplitGo_word {w : List Char} (hw : ∀ x ∈ w, isWs x = false)
    {c : Char} (hc : isWs c = true) (rest : List Char) :
    ∀ acc : List Char, acc ≠ [] ∨ w ≠ [] →
      pySplitGo (w ++ c :: rest) acc = (acc.reverse ++ w) :: pySplitGo rest [] := by
  induction w with
  | nil =>
    intro acc hne
    rcases hne with hne | hne
    · cases acc with
      | nil => exact absurd rfl hne
      | cons a acc' => simp [pySplitGo, hc]
    · exact absurd rfl hne
  | cons x xs ih =>
    intro acc _
    have hx : isWs x = false := hw x (by simp)
    have hxs : ∀ y ∈ xs, isWs y = false := fun y hy => hw y (by simp [hy])
    simp only [List.cons_append, pySplitGo, hx, Bool.false_eq_true, if_false,
      List.append_eq]
    rw [ih hxs (x :: acc) (Or.inl (by simp))]
    simp

theorem pySplitGo_append_ws {c : Char} (hc : isWs c = true) :
    ∀ (l acc : List Char), pySplitGo (l ++ [c]) acc = pySplitGo l acc := by
  intro l
  induction l with
  | nil =>
    intro acc
    cases acc with
    | nil => simp [pySplitGo, hc]
    | cons a acc' => simp [pySplitGo, hc]
  | cons x xs ih =>
    intro acc
    by_cases hx : isWs x = true
    · cases acc with
      | nil => simp [pySplitGo, hx, ih]
      | cons a acc' => simp [pySplitGo, hx, ih]
    · simp only [Bool.not_eq_true] at hx
      simp [pySplitGo, hx, ih]

theorem pySplitGo_tokens_nonWs :
    ∀ (l acc : List Char), (∀ c ∈ acc, isWs c = false) →
      ∀ t ∈ pySplitGo l acc, ∀ c ∈ t, isWs c = false := by
  intro l
  induction l with
  | nil =>
    intro acc hacc t ht
    cases acc with
    | nil => simp [pySplitGo] at ht
    | cons a acc' =>
      simp only [pySplitGo, List.mem_singleton] at ht
      subst ht
      intro c hc
      exact hacc c (List.mem_reverse.mp hc)
  | cons x xs ih =>
    intro acc hacc t ht
    by_cases hx : isWs x = true
    · simp only [pySplitGo, hx, if_true] at ht
      cases acc with
      | nil => exact ih [] (by simp) t ht
      | cons a acc' =>
        rcases List.mem_cons.mp ht with h | h
        · subst h
          intro c hc
          exact hacc c (List.mem_reverse.mp hc)
        · exact ih [] (by simp) t h
    · simp only [Bool.not_eq_true] at hx
      simp only [pySplitGo, hx, Bool.false_eq_true, if_false] at ht
      refine ih (x :: acc) ?_ t ht
      intro c hc
      rcases List.mem_cons.mp hc with h | h
      · subst h; exact hx
      · exact hacc c h

theorem strData_append (a b : String) : (a ++ b).data = a.data ++ b.data := rfl

theorem natDigit_bounds {d : Nat} (h : d < 10) :
    48 ≤ (natDigit d).toNat ∧ (natDigit d).toNat ≤ 57 := by
  interval_cases d <;> decide

theorem natReprGo_digits :
    ∀ fuel n, ∀ c ∈ natReprGo fuel n, 48 ≤ c.toNat ∧ c.toNat ≤ 57 := by
  intro fuel
  induction fuel with
  | zero => intro n c hc; simp [natReprGo] at hc
  | succ f ih =>
    intro n c hc
    simp only [natReprGo] at hc
    split at hc
    · next h =>
      simp only [List.mem_singleton] at hc
      subst hc
      exact natDigit_bounds h
    · rcases List.mem_append.mp hc with h1 | h1
      · exact ih _ c h1
      · simp only [List.mem_singleton] at h1
        subst h1
        exact natDigit_bounds (Nat.mod_lt _ (by omega))

theorem natRepr_data_digits :
    ∀ (n : Nat), ∀ c ∈ (natRepr n).data, 48 ≤ c.toNat ∧ c.toNat ≤ 57 :=
  fun n c hc => natReprGo_digits (n + 1) n c hc

theorem natRepr_nonWs (n : Nat) : ∀ c ∈ (natRepr n).data, isWs c = false := by
  intro c hc
  have hb := natRepr_data_digits n c hc
  by_contra h
  simp only [Bool.not_eq_false] at h
  have hcases : ((((c = ' ' ∨ c = '\t') ∨ c = '\n') ∨ c = '\r') ∨ c = '\x0b') ∨ c = '\x0c' := by
    simpa [isWs] using h
  rcases hcases with ((((h | h) | h) | h) | h) | h <;> subst h <;>
    exact absurd hb (by decide)

theorem natRepr_noTab (n : Nat) : ∀ c ∈ (natRepr n).data, c ≠ '\t' := by
  intro c hc h
  subst h
  exact absurd (natRepr_data_digits n _ hc) (by decide)

theorem natRepr_data_ne_nil (n : Nat) : (natRepr n).data ≠ [] := by
  show natReprGo (n + 1) n ≠ []
  simp only [natReprGo]
  split <;> simp

theorem lookupTable_mem :
    ∀ (t : List (String × String)) (k v : String),
      lookupTable t k = some v → (k, v) ∈ t := by
  intro t
  induction t with
  | nil => intro k v h; simp [lookupTable] at h
  | cons p rest ih =>
    intro k v h
    obtain ⟨a, b⟩ := p
    simp only [lookupTable] at h
    split at h
    · next heq =>
      simp only [Option.some.injEq] at h
      subst heq; subst h; exact List.mem_cons_self _ _
    · exact List.mem_cons_of_mem _ (ih k v h)

theorem pySplit_head_gesture {s : String}
    (h : strStartsWith s.data ("gesture ".data) = true) :
    (pySplit s).head? = some "gesture" := by
  obtain ⟨t, ht⟩ := eq_append_of_strStartsWith h
  have h1 : ("gesture ".data : List Char) = "gesture".data ++ [' '] := by decide
  have ht2 : s.data = "gesture".data ++ ' ' :: t := by
    rw [ht, h1, List.append_assoc, List.singleton_append]
  have hw : ∀ x ∈ ("gesture".data : List Char), isWs x = false := by decide
  have hsp : pySplitGo s.data [] = "gesture".data :: pySplitGo t [] := by
    rw [ht2, pySplitGo_word hw (by decide) t [] (Or.inr (by decide))]
    simp
  simp [pySplit, hsp]

theorem pySplitPlusGo_ne_nil : ∀ l, pySplitPlusGo l ≠ [] := by
  intro l
  cases l with
  | nil => simp [pySplitPlusGo]
  | cons c cs =>
    simp only [pySplitPlusGo]
    split
    · simp
    · cases h : pySplitPlusGo cs with
      | nil => simp
      | cons a b => simp

theorem pySplitPlusGo_append (a b : List Char) :
    pySplitPlusGo (a ++ '+' :: b) = pySplitPlusGo a ++ pySplitPlusGo b := by
  induction a with
  | nil => simp [pySplitPlusGo]
  | cons c cs ih =>
    by_cases hc : c = '+'
    · subst hc; simp [pySplitPlusGo, ih]
    · cases h : pySplitPlusGo cs with
      | nil => exact absurd h (pySplitPlusGo_ne_nil cs)
      | cons x xs =>
        simp only [List.cons_append, pySplitPlusGo, if_neg hc, List.append_eq]
        rw [ih, h]
        simp

theorem joinPlus_append (l1 l2 : List String) (h1 : l1 ≠ []) (h2 : l2 ≠ []) :
    joinPlus (l1 ++ l2) = joinPlus l1 ++ "+" ++ joinPlus l2 := by
  induction l1 with
  | nil => exact absurd rfl h1
  | cons x xs ih =>
    cases xs with
    | nil =>
      cases l2 with
      | nil => exact absurd rfl h2
      | cons y ys => simp [joinPlus]
    | cons y ys =>
      have hih := ih (by simp)
      simp only [List.cons_append] at hih ⊢
      show x ++ "+" ++ joinPlus (y :: (ys ++ l2)) =
        x ++ "+" ++ joinPlus (y :: ys) ++ "+" ++ joinPlus l2
      rw [hih]
      simp [String.append_assoc]

theorem strMk_append (x y : List Char) :
    String.mk x ++ String.mk y = String.mk (x ++ y) := rfl

theorem replaceTab_append (a b : String) :
    replaceTab (a ++ b) = replaceTab a ++ replaceTab b := by
  show String.mk ((a.data ++ b.data).map (fun c => if c = '\t' then ' ' else c)) =
    String.mk (a.data.map (fun c => if c = '\t' then ' ' else c) ++
      b.data.map (fun c => if c = '\t' then ' ' else c))
  rw [List.map_append]

theorem replaceTab_eq_self {s : String} (h : ∀ c ∈ s.data, c ≠ '\t') :
    replaceTab s = s := by
  have hm : s.data.map (fun c => if c = '\t' then ' ' else c) = s.data := by
    calc s.data.map (fun c => if c = '\t' then ' ' else c)
        = s.data.map id := List.map_congr_left (fun a ha => by simp [h a ha])
      _ = s.data := List.map_id _
  show String.mk _ = s
  rw [hm]

theorem actionsLookup_val {label act : String} (h : actionsLookup label = some act) :
    strStartsWith act.data "gesture ".data = true ∧ replaceTab act = act := by
  have hm := lookupTable_mem _ _ _ h
  simp only [actionsMapping, List.mem_cons, List.not_mem_nil, or_false,
    Prod.mk.injEq] at hm
  rcases hm with ⟨h1, h2⟩ | ⟨h1, h2⟩ | ⟨h1, h2⟩ | ⟨h1, h2⟩ | ⟨h1, h2⟩ | ⟨h1, h2⟩ |
    ⟨h1, h2⟩ | ⟨h1, h2⟩ | ⟨h1, h2⟩ | ⟨h1, h2⟩ | ⟨h1, h2⟩ | ⟨h1, h2⟩ <;>
    subst h2 <;> exact ⟨by decide, by decide⟩

theorem reversedLookup_val {tok lbl : String} (h : reversedLookup tok = some lbl) :
    strStartsWith tok.data "gesture ".data = true ∧ replaceTab tok = tok := by
  have hm := lookupTable_mem _ _ _ h
  simp only [reversedMapping, List.mem_cons, List.not_mem_nil, or_false,
    Prod.mk.injEq] at hm
  rcases hm with ⟨h1, h2⟩ | ⟨h1, h2⟩ | ⟨h1, h2⟩ | ⟨h1, h2⟩ | ⟨h1, h2⟩ | ⟨h1, h2⟩ |
    ⟨h1, h2⟩ | ⟨h1, h2⟩ | ⟨h1, h2⟩ | ⟨h1, h2⟩ | ⟨h1, h2⟩ | ⟨h1, h2⟩ <;>
    subst h1 <;> exact ⟨by decide, by decide⟩

theorem fixConfig_mem_keep :
    ∀ (conf out : List String), fixConfig conf = some out →
      ∀ l ∈ out, fixLine l = some true := by
  intro conf
  induction conf with
  | nil =>
    intro out h l hl
    simp only [fixConfig, Option.some.injEq] at h
    subst h
    simp at hl
  | cons x xs ih =>
    intro out h l hl
    simp only [fixConfig] at h
    cases hx : fixLine x with
    | none => rw [hx] at h; exact absurd h (by simp)
    | some b =>
      rw [hx] at h
      cases b with
      | false => exact ih out h l hl
      | true =>
        cases hxs : fixConfig xs with
        | none => rw [hxs] at h; exact absurd h (by simp)
        | some r =>
          rw [hxs] at h
          simp only [Option.map_some', Option.some.injEq] at h
          subst h
          rcases List.mem_cons.mp hl with h | h
          · subst h; exact hx
          · exact ih r hxs l h

theorem fixConfig_of_all_keep :
    ∀ conf : List String, (∀ l ∈ conf, fixLine l = some true) →
      fixConfig conf = some conf := by
  intro conf
  induction conf with
  | nil => intro; rfl
  | cons x xs ih =>
    intro h
    have hx : fixLine x = some true := h x (by simp)
    simp only [fixConfig, hx]
    rw [ih (fun l hl => h l (by simp [hl]))]
    rfl

theorem prepareConfig_none :
    ∀ (conf : List String) (l : String), l ∈ conf → parseLine l = none →
      prepareConfig conf = none := by
  intro conf
  induction conf with
  | nil => intro l hl; simp at hl
  | cons x xs ih =>
    intro l hl hfail
    rcases List.mem_cons.mp hl with h | h
    · subst h; simp [prepareConfig, hfail]
    · simp only [prepareConfig]
      cases hx : parseLine x with
      | none => rfl
      | some o =>
        cases o with
        | none => exact ih l h hfail
        | some r => rw [ih l h hfail]; rfl

theorem parseLine_none_of_badTriple {l : String}
    (hg : pyStartswith l "gesture" = true) (hb : badTriple l = true) :
    parseLine l = none := by
  simp only [parseLine, hg, if_true]
  simp only [badTriple] at hb
  cases hsp : pySplit (replaceTab l) with
  | nil => simp [parseTokens]
  | cons t0 rest =>
    rw [hsp] at hb
    cases rest with
    | nil => simp [parseTokens]
    | cons t1 rest2 =>
      cases rest2 with
      | nil => simp [parseTokens]
      | cons t2 rest3 =>
        simp only [Option.isNone_iff_eq_none] at hb
        simp [parseTokens, hb]

theorem pySplitGo_word0 {w : List Char} (hw : ∀ x ∈ w, isWs x = false)
    {c : Char} (hc : isWs c = true) (hne : w ≠ []) (rest : List Char) :
    pySplitGo (w ++ c :: rest) [] = w :: pySplitGo rest [] := by
  rw [pySplitGo_word hw hc rest [] (Or.inr hne)]
  simp

theorem pySplitGo_words (ws : List (List Char)) (tail : List Char)
    (h : ∀ w ∈ ws, w ≠ [] ∧ ∀ x ∈ w, isWs x = false) :
    pySplitGo (wordsChars ws tail) [] = ws ++ pySplitGo tail [] := by
  induction ws with
  | nil => rfl
  | cons w ws ih =>
    obtain ⟨hne, hw⟩ := h w (by simp)
    simp only [wordsChars]
    rw [pySplitGo_word0 hw (by decide) hne, ih (fun w hw => h w (by simp [hw]))]
    rfl

theorem serNorm_data (a b c : String) :
    (a ++ " " ++ b ++ " " ++ c ++ "\n").data =
      a.data ++ ' ' :: (b.data ++ ' ' :: (c.data ++ ['\n'])) := by
  simp only [strData_append, List.append_assoc]
  rfl

theorem replaceTab_serLine {act fstr T : String}
    (hact : replaceTab act = act) (hf : replaceTab fstr = fstr)
    (hT : replaceTab T = T) :
    replaceTab (serLine act fstr T) = act ++ " " ++ fstr ++ " " ++ T ++ "\n" := by
  have h1 : replaceTab "\t" = " " := rfl
  have h2 : replaceTab " " = " " := rfl
  have h3 : replaceTab "\n" = "\n" := rfl
  simp only [serLine, replaceTab_append, hact, hf, hT, h1, h2, h3]

theorem joinSpace_noTab (ws : List String)
    (h : ∀ t ∈ ws, ∀ c ∈ t.data, isWs c = false) :
    ∀ c ∈ (joinSpace ws).data, c ≠ '\t' := by
  induction ws with
  | nil => intro c hc; simp [joinSpace] at hc
  | cons x xs ih =>
    cases xs with
    | nil =>
      intro c hc he
      subst he
      have := h x (by simp) '\t' hc
      exact absurd this (by decide)
    | cons y ys =>
      intro c hc he
      subst he
      simp only [joinSpace, strData_append] at hc
      rcases List.mem_append.mp hc with hm | hm
      · rcases List.mem_append.mp hm with hm2 | hm2
        · exact absurd (h x (by simp) '\t' hm2) (by decide)
        · exact absurd hm2 (by decide)
      · exact ih (fun t ht => h t (by simp [List.mem_cons.mp ht])) '\t' hm rfl

theorem pySplit_tokens_nonWs (s : String) :
    ∀ t ∈ pySplit s, ∀ c ∈ t.data, isWs c = false := by
  intro t ht c hc
  simp only [pySplit, List.mem_map] at ht
  obtain ⟨cs, hcs, rfl⟩ := ht
  exact pySplitGo_tokens_nonWs s.data [] (by simp) cs hcs c hc

theorem pySplit_serLine {act fstr T : String} {ws : List (List Char)}
    (hact : replaceTab act = act) (hf : replaceTab fstr = fstr)
    (hT : replaceTab T = T)
    (hfne : fstr.data ≠ []) (hfnw : ∀ c ∈ fstr.data, isWs c = false)
    (hsplit : ∀ X : List Char,
      pySplitGo (act.data ++ ' ' :: X) [] = ws ++ pySplitGo X []) :
    pySplit (replaceTab (serLine act fstr T)) =
      ws.map (fun cs => String.mk cs) ++
        fstr :: (pySplitGo (T.data ++ ['\n']) []).map (fun cs => String.mk cs) := by
  rw [replaceTab_serLine hact hf hT]
  unfold pySplit
  rw [serNorm_data, hsplit, pySplitGo_word0 hfnw (by decide) hfne]
  simp only [List.map_append, List.map_cons]

theorem pySplitGo_xdotool_tail {V : String} (hne : V.data ≠ [])
    (hnw : ∀ c ∈ V.data, isWs c = false) :
    pySplitGo (("xdotool key " ++ V).data ++ ['\n']) [] =
      ["xdotool".data, "key".data, V.data] := by
  have hshape : ("xdotool key " ++ V).data ++ ['\n'] =
      wordsChars ["xdotool".data, "key".data] (V.data ++ '\n' :: []) := rfl
  rw [hshape, pySplitGo_words _ _ (by decide),
    pySplitGo_word0 hnw (by decide) hne]
  rfl

theorem parseTokens_shortcut (t0 t1 t2 lbl fstr V : String)
    (hlook : reversedLookup (t0 ++ " " ++ t1 ++ " " ++ t2) = some lbl) :
    parseTokens (t0 :: t1 :: t2 :: fstr :: "xdotool" :: "key" :: [V]) =
      some (some ⟨lbl, fstr, "shortcut", V, t0 ++ " " ++ t1 ++ " " ++ t2⟩) := by
  simp [parseTokens, hlook]

theorem parseTokens_command (t0 t1 t2 lbl fstr : String) (tail : List String)
    (hlook : reversedLookup (t0 ++ " " ++ t1 ++ " " ++ t2) = some lbl)
    (hok : cmdOk tail = true) :
    parseTokens (t0 :: t1 :: t2 :: fstr :: tail) =
      some (some ⟨lbl, fstr, "command", joinSpace tail,
        t0 ++ " " ++ t1 ++ " " ++ t2⟩) := by
  rcases tail with _ | ⟨w, rest⟩
  · simp [cmdOk] at hok
  · simp only [parseTokens, hlook]
    by_cases hw : w = "xdotool"
    · subst hw
      rcases rest with _ | ⟨w2, rest2⟩
      · simp [cmdOk] at hok
      · have hw2 : ¬ (w2 = "key") := by simpa [cmdOk] using hok
        simp [hw2]
    · simp [hw]

theorem parse_serLine_main {act : String} {ws : List (List Char)} {n : Nat}
    {T : String} {pl : PLine}
    (hact : replaceTab act = act)
    (hstart : pyStartswith (serLine act (natRepr n) T) "gesture" = true)
    (hT : replaceTab T = T)
    (hsplit : ∀ X : List Char,
      pySplitGo (act.data ++ ' ' :: X) [] = ws ++ pySplitGo X [])
    (hres : parseTokens (ws.map (fun cs => String.mk cs) ++
        natRepr n :: (pySplitGo (T.data ++ ['\n']) []).map (fun cs => String.mk cs)) =
      some (some pl)) :
    prepareConfig [serLine act (natRepr n) T] = some [pl] := by
  have hsp := pySplit_serLine hact (replaceTab_eq_self (natRepr_noTab n)) hT
    (natRepr_data_ne_nil n) (natRepr_nonWs n) hsplit
  have hpl : parseLine (serLine act (natRepr n) T) = some (some pl) := by
    rw [parseLine, if_pos hstart, hsp]
    exact hres
  simp [prepareConfig, hpl]

theorem roundtrip_case {b : Binding} {act t1 t2 : String}
    (hact : replaceTab act = act)
    (hstart : pyStartswith (serLine act (natRepr b.fingers) (actionText b)) "gesture" = true)
    (hsplit : ∀ X, pySplitGo (act.data ++ ' ' :: X) [] =
      ["gesture".data, t1.data, t2.data] ++ pySplitGo X [])
    (hlook : reversedLookup ("gesture" ++ " " ++ t1 ++ " " ++ t2) = some b.label)
    (hval : if b.isShortcut
      then b.value.data ≠ [] ∧ ∀ c ∈ b.value.data, isWs c = false
      else joinSpace (pySplit b.value) = b.value ∧ cmdOk (pySplit b.value) = true) :
    (prepareConfig [serLine act (natRepr b.fingers) (actionText b)]).map
        (List.map plFields) =
      some [(b.label, natRepr b.fingers,
        if b.isShortcut then "shortcut" else "command", b.value)] := by
  cases hbs : b.isShortcut with
  | true =>
    simp only [hbs, if_true] at hval ⊢
    obtain ⟨hne, hnw⟩ := hval
    have hTact : actionText b = "xdotool key " ++ b.value := by
      simp [actionText, hbs]
    have hnoTab : ∀ c ∈ b.value.data, c ≠ '\t' := by
      intro c hc he
      subst he
      exact absurd (hnw '\t' hc) (by decide)
    have hT : replaceTab ("xdotool key " ++ b.value) = "xdotool key " ++ b.value := by
      rw [replaceTab_append, replaceTab_eq_self hnoTab]
      rfl
    rw [hTact] at hstart ⊢
    have hres : parseTokens ((["gesture".data, t1.data, t2.data]).map (fun cs => String.mk cs) ++
        natRepr b.fingers ::
          (pySplitGo (("xdotool key " ++ b.value).data ++ ['\n']) []).map (fun cs => String.mk cs)) =
        some (some ⟨b.label, natRepr b.fingers, "shortcut", b.value,
          "gesture" ++ " " ++ t1 ++ " " ++ t2⟩) := by
      rw [pySplitGo_xdotool_tail hne hnw]
      exact parseTokens_shortcut "gesture" t1 t2 _ _ _ hlook
    rw [parse_serLine_main hact hstart hT hsplit hres]
    rfl
  | false =>
    simp only [hbs, Bool.false_eq_true, if_false] at hval ⊢
    obtain ⟨hjoin, hok⟩ := hval
    have hTact : actionText b = b.value := by simp [actionText, hbs]
    have hnoTab : ∀ c ∈ b.value.data, c ≠ '\t' := by
      intro c hc
      have hm : c ∈ (joinSpace (pySplit b.value)).data := by rw [hjoin]; exact hc
      exact joinSpace_noTab (pySplit b.value) (pySplit_tokens_nonWs b.value) c hm
    have hT : replaceTab b.value = b.value := replaceTab_eq_self hnoTab
    rw [hTact] at hstart ⊢
    have htail : (pySplitGo (b.value.data ++ ['\n']) []).map (fun cs => String.mk cs) =
        pySplit b.value := by
      rw [pySplitGo_append_ws (by decide)]
      rfl
    have hres : parseTokens ((["gesture".data, t1.data, t2.data]).map (fun cs => String.mk cs) ++
        natRepr b.fingers ::
          (pySplitGo (b.value.data ++ ['\n']) []).map (fun cs => String.mk cs)) =
        some (some ⟨b.label, natRepr b.fingers, "command", b.value,
          "gesture" ++ " " ++ t1 ++ " " ++ t2⟩) := by
      rw [htail]
      have h2 := parseTokens_command "gesture" t1 t2 b.label (natRepr b.fingers)
        (pySplit b.value) hlook hok
      rw [hjoin] at h2
      exact h2
    rw [parse_serLine_main hact hstart hT hsplit hres]
    rfl

theorem fixTokens_eq_implKeepTokens {sp : List String} {b : Bool}
    (h : fixTokens sp = some b) : b = implKeepTokens sp := by
  rcases sp with _ | ⟨t0, rest⟩
  · simp [fixTokens] at h
  · by_cases h0 : t0 = "gesture"
    · subst h0
      rcases rest with _ | ⟨t1, _ | ⟨t2, _ | ⟨t3, _ | ⟨t4, rest5⟩⟩⟩⟩
      · exact absurd h (by simp [fixTokens])
      · exact absurd h (by simp [fixTokens])
      · exact absurd h (by simp [fixTokens])
      · exact absurd h (by simp [fixTokens])
      · show b = (if ("gesture" :: t1 :: t2 :: t3 :: t4 :: rest5).head? = some "gesture"
          then (t4 ≠ "xdotool" || (rest5.head? = some "key" && rest5.length == 2) : Bool)
          else _)
        rw [if_pos (show ("gesture" :: t1 :: t2 :: t3 :: t4 :: rest5).head? =
          some "gesture" from rfl)]
        by_cases h4 : t4 = "xdotool"
        · subst h4
          rcases rest5 with _ | ⟨t5, rest6⟩
          · exact absurd h (by simp [fixTokens])
          · replace h : some (decide (t5 = "key") && rest6.length == 1) = some b := h
            injection h with h
            subst h
            simp only [List.head?, List.length_cons]
            have hlen : (rest6.length == 1) = (rest6.length + 1 == 2) := by
              by_cases hn : rest6.length = 1
              · simp [hn]
              · have ha : (rest6.length == 1) = false := by simpa using hn
                have hb : (rest6.length + 1 == 2) = false := by
                  simp only [beq_eq_false_iff_ne, ne_eq]
                  omega
                rw [ha, hb]
            rw [hlen]
            simp
        · have hred : fixTokens ("gesture" :: t1 :: t2 :: t3 :: t4 :: rest5) =
              some true := by
            show (if t4 = "xdotool" then _ else some true) = some true
            rw [if_neg h4]
          rw [hred] at h
          injection h with h
          subst h
          simp [h4]
    · have hne : (t0 :: rest).head? ≠ some "gesture" := by
        simp [List.head?, h0]
      show b = (if (t0 :: rest).head? = some "gesture" then _
        else if (t0 :: rest).head? = some "device" ||
          (t0 :: rest).head? = some "swipe_threshold"
        then ((t0 :: rest).length == 2 : Bool) else false)
      rw [if_neg hne]
      by_cases h1 : t0 = "device" ∨ t0 = "swipe_threshold"
      · have hc : (decide ((t0 :: rest).head? = some "device") ||
            decide ((t0 :: rest).head? = some "swipe_threshold")) = true := by
          rcases h1 with h1 | h1 <;> simp [List.head?, h1]
        rw [if_pos hc]
        have hcond : (decide (t0 = "device") || decide (t0 = "swipe_threshold")) = true := by
          rcases h1 with h1 | h1 <;> simp [h1]
        have hred : fixTokens (t0 :: rest) = some (rest.length == 1) := by
          show (if t0 = "gesture" then _
            else if (decide (t0 = "device") || decide (t0 = "swipe_threshold")) = true
              then some (rest.length == 1) else some false) = some (rest.length == 1)
          rw [if_neg h0, if_pos hcond]
        rw [hred] at h
        injection h with h
        subst h
        simp only [List.length_cons]
        by_cases hn : rest.length = 1
        · simp [hn]
        · have ha : (rest.length == 1) = false := by simpa using hn
          have hb : (rest.length + 1 == 2) = false := by
            simp only [beq_eq_false_iff_ne, ne_eq]
            omega
          rw [ha, hb]
      · push_neg at h1
        have hc : ¬ ((decide ((t0 :: rest).head? = some "device") ||
            decide ((t0 :: rest).head? = some "swipe_threshold")) = true) := by
          simp [List.head?, h1.1, h1.2]
        rw [if_neg hc]
        have hcond : ¬ ((decide (t0 = "device") || decide (t0 = "swipe_threshold")) = true) := by
          simp [h1.1, h1.2]
        have hred : fixTokens (t0 :: rest) = some false := by
          show (if t0 = "gesture" then _
            else if (decide (t0 = "device") || decide (t0 = "swipe_threshold")) = true
              then some (rest.length == 1) else some false) = some false
          rw [if_neg h0, if_neg hcond]
        rw [hred] at h
        injection h with h
        subst h
        rfl

theorem fixLine_eq_implKeep {l : String} {b : Bool} (h : fixLine l = some b) :
    b = implKeep l := by
  by_cases hc : pyStartswith l "#" = true
  · rw [fixLine, if_pos hc] at h
    injection h with h
    subst h
    rw [implKeep, if_pos hc]
  · rw [fixLine, if_neg hc] at h
    rw [implKeep, if_neg hc]
    exact fixTokens_eq_implKeepTokens h

theorem fixConfig_eq_filter :
    ∀ (conf out : List String), fixConfig conf = some out →
      out = conf.filter implKeep := by
  intro conf
  induction conf with
  | nil =>
    intro out h
    simp only [fixConfig, Option.some.injEq] at h
    subst h
    rfl
  | cons x xs ih =>
    intro out h
    simp only [fixConfig] at h
    cases hx : fixLine x with
    | none => rw [hx] at h; exact absurd h (by simp)
    | some b =>
      rw [hx] at h
      have hb := fixLine_eq_implKeep hx
      cases b with
      | true =>
        cases hxs : fixConfig xs with
        | none => rw [hxs] at h; exact absurd h (by simp)
        | some r =>
          rw [hxs] at h
          simp only [Option.map_some', Option.some.injEq] at h
          subst h
          rw [List.filter_cons, if_pos (by rw [← hb]), ih r hxs]
      | false =>
        rw [List.filter_cons, if_neg (by rw [← hb]; simp)]
        exact ih out h

/-! ### Claim theorems -/

/-- C1: the claim says label-to-token-to-label round-trips are the identity
over all 12 declared labels and tokens.  The code breaks this for exactly
one entry: `actions_mapping` maps `Swipe LeftDown` to
`gesture swipe  left_down` (two spaces), which is not a key of
`reversed_mapping` (whose key uses a single space), so the forward value can
never be looked up back; symmetrically the token `gesture swipe left_down`
maps to `Swipe LeftDown`, which forward-maps to a different token.  The
mirror table and the other 11 entries show the single-space token is the
intent, so this is a slip in the code. -/
theorem claim_label_roundtrip_breaks_on_leftdown :
    actionsLookup "Swipe LeftDown" = some "gesture swipe  left_down" ∧
    reversedLookup "gesture swipe  left_down" = none ∧
    reversedLookup "gesture swipe left_down" = some "Swipe LeftDown" ∧
    actionsLookup "Swipe LeftDown" ≠ some "gesture swipe left_down" ∧
    (∀ p ∈ actionsMapping, p.1 ≠ "Swipe LeftDown" →
      reversedLookup p.2 = some p.1) := by
  refine ⟨rfl, rfl, rfl, by decide, by decide⟩

/-- C8: the Key-Combo Translator splits on `+`, lower-cases each key,
replaces a key by its daemon name when the lowered name is in `keys_mapping`
and passes it through lowered otherwise, and rejoins with `+`; empty input
gives empty output; `Meta+PgDown` maps to `super+Page_Down` and `Ctrl+A` to
`ctrl+a`.  The last conjunct states the split/rejoin behaviour as a
homomorphism over `+`. -/
theorem claim_key_combo_translation :
    findKeyCombo "Meta+PgDown" = "super+Page_Down" ∧
    findKeyCombo "Ctrl+A" = "ctrl+a" ∧
    findKeyCombo "" = "" ∧
    ∀ s1 s2 : String,
      findKeyCombo (s1 ++ "+" ++ s2) = findKeyCombo s1 ++ "+" ++ findKeyCombo s2 := by
  refine ⟨rfl, rfl, rfl, ?_⟩
  intro s1 s2
  unfold findKeyCombo
  have hdata : (s1 ++ "+" ++ s2).data = s1.data ++ '+' :: s2.data := by
    rw [strData_append, strData_append, List.append_assoc]
    rfl
  unfold pySplitPlus
  rw [hdata, pySplitPlusGo_append, List.map_append, List.map_append]
  exact joinPlus_append _ _ (by simp [pySplitPlusGo_ne_nil])
    (by simp [pySplitPlusGo_ne_nil])

/-- C9: repair is idempotent in the Kleene sense: whenever `fix_config`
succeeds on `x` with result `y`, running it again on `y` succeeds and
returns `y` unchanged (and when it raises, the composite raises too). -/
theorem claim_repair_idempotent (conf : List String) :
    (fixConfig conf).bind fixConfig = fixConfig conf := by
  cases h : fixConfig conf with
  | none => rfl
  | some out =>
    have hkeep := fixConfig_mem_keep conf out h
    simpa [Option.bind] using fixConfig_of_all_keep out hkeep

/-- C10: repair is not total: a blank line (no tokens, so `splitted[0]`
raises `IndexError`) or a `gesture` line with fewer than five tokens
(`splitted[4]` raises) makes `fix_config` fail with an error instead of
dropping the line, even when other lines are fine. -/
theorem claim_repair_crashes_on_short_lines :
    fixConfig ["\n"] = none ∧
    fixConfig ["gesture swipe up 3\n"] = none ∧
    fixConfig ["# fine\n", "device touchpad\n", "\n"] = none := by
  refine ⟨rfl, rfl, rfl⟩

/-- C2 counterexample: the claim says any Malformed BindingLine (for example
one with a non-integer finger-count token) makes parse fail.  The line
`gesture swipe up abc xdotool key F1` is Malformed under the Line Grammar
(its finger token `abc` is not an integer), yet
`prepare_config_for_displaying` accepts it and stores the raw token `abc` as
finger count: the parser never converts `splitted[3]` to an integer. -/
theorem claim_parse_accepts_nonint_fingers :
    specWellFormedLine "gesture swipe up abc xdotool key F1\n" = false ∧
    pyStartswith "gesture swipe up abc xdotool key F1\n" "gesture" = true ∧
    prepareConfig ["gesture swipe up abc xdotool key F1\n"] =
      some [⟨"Swipe Up", "abc", "shortcut", "F1", "gesture swipe up"⟩] :=
  ⟨rfl, rfl, rfl⟩

/-- C2 amended: parse does fail fast on a `gesture`-initial line whose first
three tokens are not a declared config token (`KeyError` in
`reversed_mapping`, or too few tokens), anywhere in the ConfigFile, and in
particular on the spec's example with the unknown direction `sideways`; but
a line Malformed only by a non-integer finger-count token is parsed
successfully with the raw token stored. -/
theorem claim_parse_failfast_amended :
    (∀ (conf : List String) (l : String), l ∈ conf →
      pyStartswith l "gesture" = true → badTriple l = true →
      prepareConfig conf = none) ∧
    prepareConfig ["gesture swipe sideways 3 xdotool key F1\n"] = none := by
  refine ⟨?_, rfl⟩
  intro conf l hmem hg hb
  exact prepareConfig_none conf l hmem (parseLine_none_of_badTriple hg hb)

/-- C2 witness: the fail-fast part of the amended claim at a concrete
two-line ConfigFile with an unknown direction. -/
theorem claim_parse_failfast_amended_witness :
    prepareConfig ["# ok\n", "gesture swipe sideways 3 echo\n"] = none :=
  claim_parse_failfast_amended.1 _ "gesture swipe sideways 3 echo\n"
    (by simp) rfl rfl

/-- C3 counterexample: the claim says repair keeps exactly the lines the
Line Grammar classifies as well-formed.  `fix_config` keeps the line
`gesture swipe sideways 3 echo hi` (unknown direction) and the line
`gesture swipe up abc run` (non-integer finger count), both Malformed under
the grammar: it checks neither the `(gestureKind, direction)` pair nor the
integer-ness of the finger token. -/
theorem claim_repair_keeps_unknown_direction :
    fixConfig ["gesture swipe sideways 3 echo hi\n"] =
      some ["gesture swipe sideways 3 echo hi\n"] ∧
    specWellFormedLine "gesture swipe sideways 3 echo hi\n" = false ∧
    fixConfig ["gesture swipe up abc run\n"] =
      some ["gesture swipe up abc run\n"] ∧
    specWellFormedLine "gesture swipe up abc run\n" = false :=
  ⟨rfl, rfl, rfl, rfl⟩

/-- C3 amended: whenever `fix_config` completes without raising, the written
file is exactly the input filtered by the implemented keep-condition
`implKeep`: comments, 2-token `device`/`swipe_threshold` directives, and
`gesture` lines of at least five tokens whose fifth token is either not
`xdotool`, or is `xdotool` followed by `key` with exactly seven tokens — no
direction or finger-count validity is checked, and lines with too few
tokens make it raise instead of being dropped. -/
theorem claim_repair_filter_amended :
    (∀ (conf out : List String), fixConfig conf = some out →
      out = conf.filter implKeep) ∧
    (∀ (l : String) (b : Bool), fixLine l = some b → b = implKeep l) :=
  ⟨fixConfig_eq_filter, fun _ _ h => fixLine_eq_implKeep h⟩

/-- C3 witness: the filter characterization at a concrete three-line
ConfigFile whose junk line is dropped. -/
theorem claim_repair_filter_amended_witness :
    ["# a\n", "device touchpad\n"] =
      ["# a\n", "device touchpad\n", "foo bar\n"].filter implKeep :=
  claim_repair_filter_amended.1 ["# a\n", "device touchpad\n", "foo bar\n"] _ rfl

/-- C4 counterexample: the claim says delete removes only the lines carrying
the Binding's `(token, fingerCount)` prefix and keeps same-gesture lines
with a different finger count.  `delete_entry` filters on the button's
accessible name, which is the bare gesture token without the finger count,
so deleting the 3-finger `Swipe Up` binding also removes the 4-finger
one. -/
theorem claim_delete_removes_other_fingers :
    deleteEntry ["gesture swipe up\t3 firefox\n", "gesture swipe up\t4 chrome\n"]
        "gesture swipe up" = [] ∧
    "gesture swipe up\t4 chrome\n" ∉
      deleteEntry ["gesture swipe up\t3 firefox\n", "gesture swipe up\t4 chrome\n"]
        "gesture swipe up" := by
  refine ⟨rfl, by decide⟩

/-- C4 amended: delete removes exactly the raw lines starting with the
Binding's gesture token (regardless of finger count) and keeps every other
line unchanged; in particular no surviving line starts with the token, so a
fortiori none starts with the serialized `(token, fingerCount)` prefix
(delete completeness holds). -/
theorem claim_delete_by_token_amended :
    ∀ (conf : List String) (tok fstr : String),
      (∀ l ∈ deleteEntry conf tok, pyStartswith l tok = false) ∧
      (∀ l ∈ deleteEntry conf tok,
        pyStartswith l (tok ++ "\t" ++ fstr) = false) ∧
      (∀ l ∈ conf, pyStartswith l tok = false → l ∈ deleteEntry conf tok) ∧
      (∀ l ∈ conf, pyStartswith l tok = true → l ∉ deleteEntry conf tok) := by
  intro conf tok fstr
  refine ⟨?_, ?_, ?_, ?_⟩
  · intro l hl
    have h := (List.mem_filter.mp hl).2
    simpa using h
  · intro l hl
    have h1 : pyStartswith l tok = false := by
      have h := (List.mem_filter.mp hl).2
      simpa using h
    cases h2 : pyStartswith l (tok ++ "\t" ++ fstr) with
    | false => rfl
    | true =>
      exfalso
      have h4 : strStartsWith l.data ((tok ++ "\t" ++ fstr)).data = true := h2
      rw [strData_append, strData_append, List.append_assoc] at h4
      have h3 := strStartsWith_of_append h4
      rw [pyStartswith] at h1
      rw [h1] at h3
      exact absurd h3 (by simp)
  · intro l hl hfalse
    exact List.mem_filter.mpr ⟨hl, by simp [hfalse]⟩
  · intro l _ htrue hmem
    have h := (List.mem_filter.mp hmem).2
    simp [htrue] at h

/-- C4 witness: a directive line not carrying the token survives a delete at
a concrete ConfigFile. -/
theorem claim_delete_by_token_amended_witness :
    "device touchpad\n" ∈ deleteEntry ["device touchpad\n"] "gesture swipe up" :=
  (claim_delete_by_token_amended ["device touchpad\n"] "gesture swipe up" "3").2.2.1
    "device touchpad\n" (by simp) rfl

theorem replaceTab_serLine2 {act fstr : String} (sh : String)
    (hact : replaceTab act = act) (hf : replaceTab fstr = fstr) :
    replaceTab (serLine act fstr sh) =
      act ++ " " ++ fstr ++ " " ++ replaceTab sh ++ "\n" := by
  have h1 : replaceTab "\t" = " " := rfl
  have h2 : replaceTab " " = " " := rfl
  have h3 : replaceTab "\n" = "\n" := rfl
  simp only [serLine, replaceTab_append, hact, hf, h1, h2, h3]

theorem pyStartswith_of_prefix_append (p q : String) :
    pyStartswith (p ++ q) p = true := by
  unfold pyStartswith
  rw [strData_append]
  exact strStartsWith_append_self _ _

theorem serLine_matches_upsert_key {act fstr : String} (sh : String)
    (hact : replaceTab act = act) (hf : replaceTab fstr = fstr) :
    pyStartswith (replaceTab (serLine act fstr sh)) (act ++ " " ++ fstr) = true := by
  rw [replaceTab_serLine2 sh hact hf]
  have hassoc : act ++ " " ++ fstr ++ " " ++ replaceTab sh ++ "\n" =
      (act ++ " " ++ fstr) ++ (" " ++ (replaceTab sh ++ "\n")) := by
    simp [String.append_assoc]
  rw [hassoc]
  exact pyStartswith_of_prefix_append _ _

/-- C5 counterexample: the claim says upsert-then-upsert on the same
identity key leaves exactly one Binding with that key.  The dedupe match is
a textual prefix test on `'{action} {fingers}'` after tab normalization, so
a pre-existing BindingLine with the same identity key but non-canonical
spacing (`gesture  swipe up 3 x`, double space) survives both upserts, and
the final ConfigFile parses to two Bindings with identity key
`(Swipe, Up, 3)`. -/
theorem claim_upsert_duplicate_identity :
    prepareConfig (saveChanges (saveChanges ["gesture  swipe up 3 x\n"]
        "gesture swipe up" "3" "y") "gesture swipe up" "3" "z") =
      some [⟨"Swipe Up", "3", "command", "x", "gesture swipe up"⟩,
        ⟨"Swipe Up", "3", "command", "z", "gesture swipe up"⟩] ∧
    actionsLookup "Swipe Up" = some "gesture swipe up" ∧ natRepr 3 = "3" :=
  ⟨rfl, rfl, rfl⟩

/-- C5 amended: after `upsert(b)` then `upsert(b')` for Bindings sharing the
serialized `(action token, fingerCount)` pair, the persisted ConfigFile is
the original minus every line whose tab-normalized text starts with
`'{token} {fingerCount}'`, with `b'`'s serialized line appended last; that
appended line is the unique line whose tab-normalized text carries the
serialized prefix.  (Uniqueness is per textual prefix, not per identity key:
a same-key line with non-canonical spacing can survive, see the
counterexample.) -/
theorem claim_upsert_amended (conf : List String) (label act : String) (n : Nat)
    (sh1 sh2 : String) (hlook : actionsLookup label = some act) :
    saveChanges (saveChanges conf act (natRepr n) sh1) act (natRepr n) sh2 =
      (conf.filter (fun l =>
        !(pyStartswith (replaceTab l) (act ++ " " ++ natRepr n)))) ++
        [serLine act (natRepr n) sh2] ∧
    (saveChanges (saveChanges conf act (natRepr n) sh1) act (natRepr n) sh2).getLast? =
      some (serLine act (natRepr n) sh2) ∧
    (saveChanges (saveChanges conf act (natRepr n) sh1) act (natRepr n) sh2).countP
      (fun l => pyStartswith (replaceTab l) (act ++ " " ++ natRepr n)) = 1 := by
  obtain ⟨hgest, hact⟩ := actionsLookup_val hlook
  have hf : replaceTab (natRepr n) = natRepr n := replaceTab_eq_self (natRepr_noTab n)
  have hser := fun sh => @serLine_matches_upsert_key act (natRepr n) sh hact hf
  have hmain : saveChanges (saveChanges conf act (natRepr n) sh1) act (natRepr n) sh2 =
      (conf.filter (fun l =>
        !(pyStartswith (replaceTab l) (act ++ " " ++ natRepr n)))) ++
        [serLine act (natRepr n) sh2] := by
    unfold saveChanges
    congr 1
    rw [List.filter_append]
    have h1 : List.filter (fun l =>
        !pyStartswith (replaceTab l) (act ++ " " ++ natRepr n))
        [serLine act (natRepr n) sh1] = [] := by
      simp [List.filter, hser sh1]
    rw [h1, List.append_nil, List.filter_filter]
    congr 1
    funext a
    rw [Bool.and_self]
  refine ⟨hmain, ?_, ?_⟩
  · rw [hmain]
    exact List.getLast?_concat _
  · rw [hmain, List.countP_append]
    have hz : (conf.filter (fun l =>
        !(pyStartswith (replaceTab l) (act ++ " " ++ natRepr n)))).countP
        (fun l => pyStartswith (replaceTab l) (act ++ " " ++ natRepr n)) = 0 := by
      rw [List.countP_eq_zero]
      intro l hl
      have h := (List.mem_filter.mp hl).2
      simp only [Bool.not_eq_true'] at h
      simp [h]
    rw [hz]
    simp [List.countP_cons, hser sh2]

/-- C5 witness: the amended claim applied at a concrete one-comment
ConfigFile. -/
theorem claim_upsert_amended_witness :
    (saveChanges (saveChanges ["# c\n"] "gesture swipe up" (natRepr 3) "a")
      "gesture swipe up" (natRepr 3) "b").getLast? =
      some (serLine "gesture swipe up" (natRepr 3) "b") :=
  (claim_upsert_amended ["# c\n"] "Swipe Up" "gesture swipe up" 3 "a" "b" rfl).2.1

/-- C6 counterexample: the claim says parse-of-serialize reconstructs every
well-formed Binding in all fields.  The Command Binding whose actionValue is
the shell text `xdotool key F1` serializes to a line the parser re-reads as
a Shortcut with actionValue `F1`: actionKind and actionValue both differ
after the round trip. -/
theorem claim_command_xdotool_misparsed :
    serializeBinding ⟨"Swipe Up", 3, false, "xdotool key F1"⟩ =
      some "gesture swipe up\t3 xdotool key F1\n" ∧
    prepareConfig ["gesture swipe up\t3 xdotool key F1\n"] =
      some [⟨"Swipe Up", "3", "shortcut", "F1", "gesture swipe up"⟩] :=
  ⟨rfl, rfl⟩

/-- C6 amended: for every Binding with a declared label, parsing the
serialized single-line ConfigFile reconstructs the label, the finger count
(as its decimal string), the action kind and the action value — provided
the Shortcut value is a non-empty whitespace-free token, and the Command
value is its own canonical single-space token join whose tokens do not
start with `xdotool` alone or `xdotool key` (those are re-read as a crash
or a Shortcut respectively, see the counterexample). -/
theorem claim_serialize_parse_roundtrip_amended (b : Binding) (line : String)
    (hser : serializeBinding b = some line)
    (hval : if b.isShortcut
      then b.value.data ≠ [] ∧ ∀ c ∈ b.value.data, isWs c = false
      else joinSpace (pySplit b.value) = b.value ∧ cmdOk (pySplit b.value) = true) :
    (prepareConfig [line]).map (List.map plFields) =
      some [(b.label, natRepr b.fingers,
        if b.isShortcut then "shortcut" else "command", b.value)] := by
  cases hact0 : actionsLookup b.label with
  | none => rw [serializeBinding, hact0] at hser; exact absurd hser (by simp)
  | some act =>
    rw [serializeBinding, hact0] at hser
    simp only [Option.map_some', Option.some.injEq] at hser
    subst hser
    have hm := lookupTable_mem _ _ _ hact0
    simp only [actionsMapping, List.mem_cons, List.not_mem_nil, or_false,
      Prod.mk.injEq] at hm
    rcases hm with ⟨h1, h2⟩ | ⟨h1, h2⟩ | ⟨h1, h2⟩ | ⟨h1, h2⟩ | ⟨h1, h2⟩ | ⟨h1, h2⟩ |
      ⟨h1, h2⟩ | ⟨h1, h2⟩ | ⟨h1, h2⟩ | ⟨h1, h2⟩ | ⟨h1, h2⟩ | ⟨h1, h2⟩ <;> subst h2
    · exact roundtrip_case (by decide) rfl
        (fun X => pySplitGo_words ["gesture".data, "swipe".data, "up".data] X
          (by decide)) (by rw [h1]; rfl) hval
    · exact roundtrip_case (by decide) rfl
        (fun X => pySplitGo_words ["gesture".data, "swipe".data, "down".data] X
          (by decide)) (by rw [h1]; rfl) hval
    · exact roundtrip_case (by decide) rfl
        (fun X => pySplitGo_words ["gesture".data, "swipe".data, "left".data] X
          (by decide)) (by rw [h1]; rfl) hval
    · exact roundtrip_case (by decide) rfl
        (fun X => pySplitGo_words ["gesture".data, "swipe".data, "left_up".data] X
          (by decide)) (by rw [h1]; rfl) hval
    · exact roundtrip_case (by decide) rfl
        (fun X => by
          have h5 := pySplitGo_words ["gesture".data, "swipe".data]
            (' ' :: wordsChars ["left_down".data] X) (by decide)
          rw [pySplitGo_ws_cons (by decide),
            pySplitGo_words ["left_down".data] X (by decide)] at h5
          exact h5)
        (by rw [h1]; rfl) hval
    · exact roundtrip_case (by decide) rfl
        (fun X => pySplitGo_words ["gesture".data, "swipe".data, "right".data] X
          (by decide)) (by rw [h1]; rfl) hval
    · exact roundtrip_case (by decide) rfl
        (fun X => pySplitGo_words ["gesture".data, "swipe".data, "right_up".data] X
          (by decide)) (by rw [h1]; rfl) hval
    · exact roundtrip_case (by decide) rfl
        (fun X => pySplitGo_words ["gesture".data, "swipe".data, "right_down".data] X
          (by decide)) (by rw [h1]; rfl) hval
    · exact roundtrip_case (by decide) rfl
        (fun X => pySplitGo_words ["gesture".data, "pinch".data, "in".data] X
          (by decide)) (by rw [h1]; rfl) hval
    · exact roundtrip_case (by decide) rfl
        (fun X => pySplitGo_words ["gesture".data, "pinch".data, "out".data] X
          (by decide)) (by rw [h1]; rfl) hval
    · exact roundtrip_case (by decide) rfl
        (fun X => pySplitGo_words ["gesture".data, "pinch".data, "clockwise".data] X
          (by decide)) (by rw [h1]; rfl) hval
    · exact roundtrip_case (by decide) rfl
        (fun X => pySplitGo_words ["gesture".data, "pinch".data, "anticlockwise".data] X
          (by decide)) (by rw [h1]; rfl) hval

/-- C6 witness: the amended round trip at a concrete Shortcut Binding. -/
theorem claim_serialize_parse_roundtrip_amended_witness :
    (prepareConfig ["gesture pinch in\t2 xdotool key super+Page_Down\n"]).map
        (List.map plFields) =
      some [("Pinch In", natRepr 2, "shortcut", "super+Page_Down")] :=
  claim_serialize_parse_roundtrip_amended ⟨"Pinch In", 2, true, "super+Page_Down"⟩
    "gesture pinch in\t2 xdotool key super+Page_Down\n" rfl ⟨by decide, by decide⟩

theorem classified_not_gesture {l : String}
    (hcls : specIsComment l = true ∨ specIsDirective l = true) :
    strStartsWith (replaceTab l).data ("gesture ".data) = false ∧
    strStartsWith l.data ("gesture ".data) = false := by
  have hrt : strStartsWith (replaceTab l).data ("gesture ".data) = false := by
    cases hx : strStartsWith (replaceTab l).data ("gesture ".data) with
    | false => rfl
    | true =>
      exfalso
      rcases hcls with hc | hd
      · have hc2 : strStartsWith l.data ("#".data) = true := hc
        obtain ⟨t, ht⟩ := eq_append_of_strStartsWith hc2
        have hdata : (replaceTab l).data =
            '#' :: (t.map (fun c => if c = '\t' then ' ' else c)) := by
          show l.data.map (fun c => if c = '\t' then ' ' else c) = _
          rw [ht]
          rfl
        rw [hdata] at hx
        have hfalse : strStartsWith
            ('#' :: (t.map (fun c => if c = '\t' then ' ' else c)))
            ("gesture ".data) = false := rfl
        rw [hfalse] at hx
        exact absurd hx (by simp)
      · have hhead := pySplit_head_gesture hx
        have hd2 : (pySplit (replaceTab l)).head? = some "device" ∨
            (pySplit (replaceTab l)).head? = some "swipe_threshold" := by
          simpa [specIsDirective] using hd
        rcases hd2 with hd2 | hd2 <;> rw [hd2] at hhead <;>
          exact absurd hhead (by decide)
  refine ⟨hrt, ?_⟩
  cases hraw : strStartsWith l.data ("gesture ".data) with
  | false => rfl
  | true =>
    exfalso
    obtain ⟨t, ht⟩ := eq_append_of_strStartsWith hraw
    have hdata : (replaceTab l).data =
        "gesture ".data ++ (t.map (fun c => if c = '\t' then ' ' else c)) := by
      show l.data.map (fun c => if c = '\t' then ' ' else c) = _
      rw [ht, List.map_append]
      rfl
    have hx2 : strStartsWith (replaceTab l).data ("gesture ".data) = true := by
      rw [hdata]
      exact strStartsWith_append_self _ _
    rw [hrt] at hx2
    exact absurd hx2 (by simp)

/-- C7: every Comment line and every Directive line of the ConfigFile is
present byte-for-byte unchanged after an upsert (`save_changes`) or a delete
(`delete_entry`), for every ConfigFile and Binding argument: upsert's prefix
filter and delete's token filter can only match lines starting with
`gesture `, which no comment or directive does. -/
theorem claim_comments_directives_preserved :
    ∀ (conf : List String) (l : String),
      specIsComment l = true ∨ specIsDirective l = true → l ∈ conf →
      (∀ label act fstr sh, actionsLookup label = some act →
        l ∈ saveChanges conf act fstr sh) ∧
      (∀ tok lbl, reversedLookup tok = some lbl → l ∈ deleteEntry conf tok) := by
  intro conf l hcls hmem
  obtain ⟨hrt, hraw⟩ := classified_not_gesture hcls
  constructor
  · intro label act fstr sh hlook
    obtain ⟨hgest, _⟩ := actionsLookup_val hlook
    refine List.mem_append_left _ (List.mem_filter.mpr ⟨hmem, ?_⟩)
    have hfalse : pyStartswith (replaceTab l) (act ++ " " ++ fstr) = false := by
      cases hx : pyStartswith (replaceTab l) (act ++ " " ++ fstr) with
      | false => rfl
      | true =>
        exfalso
        have hg2 : strStartsWith (act ++ " " ++ fstr).data ("gesture ".data) = true := by
          obtain ⟨q, hq⟩ := eq_append_of_strStartsWith hgest
          rw [strData_append, strData_append, hq, List.append_assoc,
            List.append_assoc]
          exact strStartsWith_append_self _ _
        obtain ⟨q2, hq2⟩ := eq_append_of_strStartsWith hg2
        have hx2 : strStartsWith (replaceTab l).data ("gesture ".data) = true := by
          have hx3 : strStartsWith (replaceTab l).data (act ++ " " ++ fstr).data =
              true := hx
          rw [hq2] at hx3
          exact strStartsWith_of_append hx3
        rw [hrt] at hx2
        exact absurd hx2 (by simp)
    simp [hfalse]
  · intro tok lbl hlook
    obtain ⟨hgt, _⟩ := reversedLookup_val hlook
    refine List.mem_filter.mpr ⟨hmem, ?_⟩
    have hfalse : pyStartswith l tok = false := by
      cases hx : pyStartswith l tok with
      | false => rfl
      | true =>
        exfalso
        obtain ⟨q, hq⟩ := eq_append_of_strStartsWith hgt
        have hx3 : strStartsWith l.data tok.data = true := hx
        rw [hq] at hx3
        have hx2 := strStartsWith_of_append hx3
        rw [hraw] at hx2
        exact absurd hx2 (by simp)
    simp [hfalse]

/-- C7 witness: a comment surviving an upsert and a directive surviving a
delete, at concrete ConfigFiles. -/
theorem claim_comments_directives_preserved_witness :
    "# note\n" ∈ saveChanges ["# note\n"] "gesture swipe up" "3" "firefox" ∧
    "device touchpad\n" ∈ deleteEntry ["device touchpad\n"] "gesture pinch in" :=
  ⟨(claim_comments_directives_preserved ["# note\n"] "# note\n" (Or.inl rfl)
      (by simp)).1 "Swipe Up" "gesture swipe up" "3" "firefox" rfl,
   (claim_comments_directives_preserved ["device touchpad\n"] "device touchpad\n"
      (Or.inr (by decide)) (by simp)).2 "gesture pinch in" "Pinch In" rfl⟩
